import Mathlib

/-!
Verification of the OpusDNS Go client core: request executor (retry,
backoff, rate limiting), zone resolution (longest-suffix matching), and
DNS propagation verification (polling with quorum and timeout).

Go strings hold byte sequences; the client only manipulates ASCII host
names and TXT values, so strings are modelled as lists of characters.
Durations and timestamps are modelled as rationals (nanosecond counts).
-/

set_option maxHeartbeats 1000000

namespace OpusDNS

/-- A Go string, modelled as the list of its characters. -/
abbrev GoString := List Char

/-- Go's `strings.HasSuffix(s, suffix)`. -/
def hasSuffix (s suffix : GoString) : Bool :=
  suffix.isSuffixOf s

/-! ## Zone resolution (`FindZoneForFQDN`, client.go:961-997) -/

/-- The dot-termination step used by `FindZoneForFQDN`:
`if !strings.HasSuffix(s, ".") { s = s + "." }`. -/
def ensureDot (s : GoString) : GoString :=
  if hasSuffix s ['.'] then s else s ++ ['.']

/-- Go's `strings.TrimSuffix(s, ".")`: drops one trailing dot when present. -/
def trimSuffixDot (s : GoString) : GoString :=
  if hasSuffix s ['.'] then s.dropLast else s

/-- One iteration of the zone-matching loop in `FindZoneForFQDN`:
dot-terminate the zone name, and replace the current best match when the
zone name is a suffix of the FQDN and strictly longer than the best so far. -/
def zoneFold (fqdn : GoString) (matchedZone z : GoString) : GoString :=
  if hasSuffix fqdn (ensureDot z) && decide (matchedZone.length < (ensureDot z).length) then
    ensureDot z
  else
    matchedZone

/-- The zone-matching loop of `FindZoneForFQDN`, starting from the empty
best match (`var matchedZone string`). -/
def bestMatch (fqdn : GoString) (zones : List GoString) : GoString :=
  zones.foldl (zoneFold fqdn) []

/-- The two failure modes of `FindZoneForFQDN`: an empty zone listing
("no zones found in OpusDNS account") and no matching zone
("no zone found for FQDN %s (available zones: %d)"). -/
inductive ZoneError where
  | noZones : ZoneError
  | zoneNotFound : GoString → ℕ → ZoneError
deriving DecidableEq

instance {ε α : Type} [DecidableEq ε] [DecidableEq α] : DecidableEq (Except ε α) := fun x y =>
  match x, y with
  | .ok a, .ok b =>
    if h : a = b then isTrue (by rw [h]) else isFalse (by intro hc; cases hc; exact h rfl)
  | .error a, .error b =>
    if h : a = b then isTrue (by rw [h]) else isFalse (by intro hc; cases hc; exact h rfl)
  | .ok _, .error _ => isFalse (by intro hc; cases hc)
  | .error _, .ok _ => isFalse (by intro hc; cases hc)

/-- The function `FindZoneForFQDN` (client.go:961-997), with the zone snapshot returned
by `ListZones` passed explicitly. -/
def FindZoneForFQDN (zones : List GoString) (fqdn : GoString) : Except ZoneError GoString :=
  if zones.length = 0 then
    .error .noZones
  else if bestMatch (ensureDot fqdn) zones = [] then
    .error (.zoneNotFound (ensureDot fqdn) zones.length)
  else
    .ok (trimSuffixDot (bestMatch (ensureDot fqdn) zones))

lemma zoneFold_length_le (fqdn acc z : GoString) :
    acc.length ≤ (zoneFold fqdn acc z).length := by
  unfold zoneFold
  split
  · rename_i h
    have h2 := (Bool.and_eq_true _ _).mp h |>.2
    have := of_decide_eq_true h2
    omega
  · exact le_refl _

lemma bestMatch_go_length_le (fqdn : GoString) (zones : List GoString) :
    ∀ acc : GoString, acc.length ≤ (List.foldl (zoneFold fqdn) acc zones).length := by
  induction zones with
  | nil => intro acc; simp
  | cons z zs ih =>
    intro acc
    rw [List.foldl_cons]
    exact le_trans (zoneFold_length_le fqdn acc z) (ih (zoneFold fqdn acc z))

lemma bestMatch_go_mem (fqdn : GoString) (zones : List GoString) :
    ∀ acc : GoString, List.foldl (zoneFold fqdn) acc zones = acc ∨
      ∃ w ∈ zones, List.foldl (zoneFold fqdn) acc zones = ensureDot w ∧
        hasSuffix fqdn (ensureDot w) = true := by
  induction zones with
  | nil => intro acc; left; rfl
  | cons z zs ih =>
    intro acc
    rw [List.foldl_cons]
    rcases ih (zoneFold fqdn acc z) with h | ⟨w, hw, h1, h2⟩
    · rw [h]
      unfold zoneFold
      split
      · rename_i hc
        exact Or.inr ⟨z, List.mem_cons_self z zs, rfl, ((Bool.and_eq_true _ _).mp hc).1⟩
      · left; rfl
    · exact Or.inr ⟨w, List.mem_cons_of_mem z hw, h1, h2⟩

lemma bestMatch_go_max (fqdn w : GoString) (hs : hasSuffix fqdn (ensureDot w) = true) :
    ∀ (zones : List GoString) (acc : GoString), w ∈ zones →
      (ensureDot w).length ≤ (List.foldl (zoneFold fqdn) acc zones).length := by
  intro zones
  induction zones with
  | nil => intro acc hw; cases hw
  | cons z zs ih =>
    intro acc hw
    rw [List.foldl_cons]
    rcases List.mem_cons.mp hw with heq | hmem
    · subst heq
      have hstep : (ensureDot w).length ≤ (zoneFold fqdn acc w).length := by
        unfold zoneFold
        split
        · exact le_refl _
        · rename_i hc
          rw [hs, Bool.true_and] at hc
          simp at hc
          omega
      exact le_trans hstep (bestMatch_go_length_le fqdn zs _)
    · exact ih _ hmem

lemma bestMatch_go_none (fqdn : GoString) (zones : List GoString)
    (h : ∀ w ∈ zones, hasSuffix fqdn (ensureDot w) = false) :
    ∀ acc : GoString, List.foldl (zoneFold fqdn) acc zones = acc := by
  induction zones with
  | nil => intro acc; rfl
  | cons z zs ih =>
    intro acc
    rw [List.foldl_cons]
    have hz := h z (List.mem_cons_self z zs)
    have hacc : zoneFold fqdn acc z = acc := by
      unfold zoneFold
      split
      · rename_i hc
        rw [hz, Bool.false_and] at hc
        cases hc
      · rfl
    rw [hacc]
    exact ih (fun w hw => h w (List.mem_cons_of_mem z hw)) acc

lemma ensureDot_ne_nil (s : GoString) : ensureDot s ≠ [] := by
  unfold ensureDot
  split
  · rename_i h
    intro hnil
    subst hnil
    exact absurd h (by decide)
  · simp

/-- C2: among all zones whose dot-terminated name is a suffix of the
dot-terminated FQDN, `FindZoneForFQDN` returns the zone with the greatest
(dot-terminated) name length; and on the snapshot
{example.com, sub.example.com} it maps `_acme-challenge.sub.example.com`
to `sub.example.com`, `_acme-challenge.example.com` to `example.com`, and
fails with a zone-not-found error on `nomatch.org`. -/
theorem findZoneForFQDN_longest_match :
    (∀ (zones : List GoString) (fqdn z : GoString),
      FindZoneForFQDN zones fqdn = .ok z →
      ∃ w ∈ zones, z = trimSuffixDot (ensureDot w) ∧
        hasSuffix (ensureDot fqdn) (ensureDot w) = true ∧
        ∀ w' ∈ zones, hasSuffix (ensureDot fqdn) (ensureDot w') = true →
          (ensureDot w').length ≤ (ensureDot w).length)
  ∧ (∀ (zones : List GoString) (fqdn w : GoString),
      w ∈ zones → hasSuffix (ensureDot fqdn) (ensureDot w) = true →
      ∃ z, FindZoneForFQDN zones fqdn = .ok z)
  ∧ FindZoneForFQDN ["example.com".toList, "sub.example.com".toList]
      "_acme-challenge.sub.example.com".toList = .ok "sub.example.com".toList
  ∧ FindZoneForFQDN ["example.com".toList, "sub.example.com".toList]
      "_acme-challenge.example.com".toList = .ok "example.com".toList
  ∧ FindZoneForFQDN ["example.com".toList, "sub.example.com".toList]
      "nomatch.org".toList = .error (.zoneNotFound "nomatch.org.".toList 2) := by
  refine ⟨?_, ?_, by decide, by decide, by decide⟩
  · intro zones fqdn z h
    unfold FindZoneForFQDN at h
    split at h
    · cases h
    · split at h
      · cases h
      · rename_i hne hmatch
        have hz : z = trimSuffixDot (bestMatch (ensureDot fqdn) zones) := by
          cases h; rfl
        rcases bestMatch_go_mem (ensureDot fqdn) zones [] with h0 | ⟨w, hw, h1, h2⟩
        · exact absurd h0 hmatch
        · have hb : bestMatch (ensureDot fqdn) zones
              = List.foldl (zoneFold (ensureDot fqdn)) [] zones := rfl
          refine ⟨w, hw, ?_, h2, ?_⟩
          · rw [hz, hb, h1]
          · intro w' hw' hs'
            have hmax := bestMatch_go_max (ensureDot fqdn) w' hs' zones [] hw'
            rw [h1] at hmax
            exact hmax
  · intro zones fqdn w hw hs
    have hlen : zones.length ≠ 0 := by
      intro h0
      rw [List.length_eq_zero] at h0
      subst h0
      cases hw
    have hbm : bestMatch (ensureDot fqdn) zones ≠ [] := by
      intro h0
      have hmax := bestMatch_go_max (ensureDot fqdn) w hs zones [] hw
      have hb : bestMatch (ensureDot fqdn) zones
          = List.foldl (zoneFold (ensureDot fqdn)) [] zones := rfl
      rw [← hb, h0] at hmax
      simp at hmax
      exact ensureDot_ne_nil w hmax
    refine ⟨trimSuffixDot (bestMatch (ensureDot fqdn) zones), ?_⟩
    unfold FindZoneForFQDN
    rw [if_neg hlen, if_neg hbm]

/-- C2 witness: the general soundness statement instantiated on the
two-zone snapshot at `_acme-challenge.sub.example.com`. -/
theorem findZoneForFQDN_longest_match_witness :
    ∃ w ∈ ["example.com".toList, "sub.example.com".toList],
      "sub.example.com".toList = trimSuffixDot (ensureDot w) ∧
      hasSuffix (ensureDot "_acme-challenge.sub.example.com".toList) (ensureDot w) = true ∧
      ∀ w' ∈ ["example.com".toList, "sub.example.com".toList],
        hasSuffix (ensureDot "_acme-challenge.sub.example.com".toList) (ensureDot w') = true →
          (ensureDot w').length ≤ (ensureDot w).length :=
  findZoneForFQDN_longest_match.1 _ _ _ (by decide)

/-- C3 counterexample: with the snapshot containing only `example.com`,
`FindZoneForFQDN "notexample.com"` does NOT fail with a zone-not-found
error: the dotted comparison matches the textual suffix and the call
succeeds with `example.com`. -/
theorem findZoneForFQDN_notexample_counterexample :
    FindZoneForFQDN ["example.com".toList] "notexample.com".toList
      = .ok "example.com".toList
  ∧ FindZoneForFQDN ["example.com".toList] "notexample.com".toList
      ≠ .error (.zoneNotFound (ensureDot "notexample.com".toList) 1) := by
  refine ⟨by decide, by decide⟩

/-- C3 (amended): the matching rule compares the FQDN and each zone name
with trailing dots appended to both, but this is a plain textual suffix
test that does not enforce a label boundary on the left: `notexample.com.`
ends with `example.com.`, so for the snapshot containing only
`example.com`, `FindZoneForFQDN "notexample.com"` matches and returns
`example.com`. -/
theorem findZoneForFQDN_textual_suffix :
    hasSuffix (ensureDot "notexample.com".toList) (ensureDot "example.com".toList) = true
  ∧ FindZoneForFQDN ["example.com".toList] "notexample.com".toList
      = .ok "example.com".toList := by
  decide

/-- C9: `FindZoneForFQDN` distinguishes its two failure causes: an empty
snapshot yields the distinct "no zones in account" error, and a non-empty
snapshot in which no dot-terminated zone name is a suffix of the
dot-terminated FQDN yields a "zone not found" error carrying the
(dot-terminated) FQDN and the number of zones considered. -/
theorem findZoneForFQDN_error_causes (zones : List GoString) (fqdn : GoString) :
    (zones = [] → FindZoneForFQDN zones fqdn = .error .noZones)
  ∧ (zones ≠ [] → (∀ w ∈ zones, hasSuffix (ensureDot fqdn) (ensureDot w) = false) →
      FindZoneForFQDN zones fqdn = .error (.zoneNotFound (ensureDot fqdn) zones.length)) := by
  constructor
  · intro h
    subst h
    rfl
  · intro hne hnomatch
    have hlen : zones.length ≠ 0 := by
      intro h0
      exact hne (List.length_eq_zero.mp h0)
    have hbm : bestMatch (ensureDot fqdn) zones = [] :=
      bestMatch_go_none (ensureDot fqdn) zones hnomatch []
    unfold FindZoneForFQDN
    rw [if_neg hlen, if_pos hbm]

/-- C9 witness: both failure causes realized on concrete inputs. -/
theorem findZoneForFQDN_error_causes_witness :
    FindZoneForFQDN [] "example.org".toList = .error .noZones
  ∧ FindZoneForFQDN ["example.com".toList] "nomatch.org".toList
      = .error (.zoneNotFound (ensureDot "nomatch.org".toList) 1) := by
  constructor
  · exact (findZoneForFQDN_error_causes [] "example.org".toList).1 rfl
  · exact (findZoneForFQDN_error_causes ["example.com".toList] "nomatch.org".toList).2
      (by decide) (by decide)

/-! ## TXT value comparison (`WaitForPropagation` / `checkDNSRecord`) -/

/-- Go's `strings.Trim(s, string(c))`: removes all leading and trailing
occurrences of the character `c`. -/
def goTrim (c : Char) (s : GoString) : GoString :=
  ((s.dropWhile (· == c)).reverse.dropWhile (· == c)).reverse

/-- The TXT-answer comparison loop of `checkDNSRecord`: some returned TXT
value, with surrounding quotes stripped, equals the (already stripped)
expected value. -/
def checkTXTAnswers (expectedValue : GoString) (txtValues : List GoString) : Bool :=
  txtValues.any fun record => goTrim '"' record == expectedValue

/-- The comparison as performed by `WaitForPropagation`, which first strips
surrounding quotes from the expected value and then runs `checkDNSRecord`'s
answer loop. -/
def txtValueMatches (expectedValue : GoString) (txtValues : List GoString) : Bool :=
  checkTXTAnswers (goTrim '"' expectedValue) txtValues

lemma dropWhile_append_char (p : Char → Bool) (s t : List Char) :
    List.dropWhile p (s ++ t) =
      if List.dropWhile p s = [] then List.dropWhile p t else List.dropWhile p s ++ t := by
  induction s with
  | nil => simp
  | cons x xs ih =>
    by_cases hp : p x = true
    · simpa [List.dropWhile, hp] using ih
    · have hp' : p x = false := by simpa using hp
      simp [List.dropWhile, hp']

lemma goTrim_cons_quote (s : GoString) : goTrim '"' ('"' :: s) = goTrim '"' s := by
  unfold goTrim
  simp [List.dropWhile]

lemma goTrim_append_quote (s : GoString) : goTrim '"' (s ++ ['"']) = goTrim '"' s := by
  unfold goTrim
  rw [dropWhile_append_char]
  split
  · rename_i h
    rw [h]
    simp [List.dropWhile]
  · rw [List.reverse_append]
    simp [List.dropWhile]

lemma goTrim_quote_wrap (s : GoString) : goTrim '"' ('"' :: (s ++ ['"'])) = goTrim '"' s := by
  rw [goTrim_cons_quote, goTrim_append_quote]

/-- C8: the TXT comparison is quote-insensitive: surrounding double quotes
are stripped from both the expected value and each TXT answer before the
equality test, so wrapping either side in quotes never changes the result;
in particular `"value"` and `value` each match a TXT answer of `"value"`
(and of `value`). -/
theorem txtValueMatches_quote_insensitive :
    (∀ (v a : GoString) (rs : List GoString),
      txtValueMatches ('"' :: (v ++ ['"'])) rs = txtValueMatches v rs
    ∧ txtValueMatches v (('"' :: (a ++ ['"'])) :: rs) = txtValueMatches v (a :: rs))
  ∧ txtValueMatches "\"value\"".toList ["\"value\"".toList] = true
  ∧ txtValueMatches "value".toList ["\"value\"".toList] = true
  ∧ txtValueMatches "\"value\"".toList ["value".toList] = true
  ∧ txtValueMatches "value".toList ["value".toList] = true := by
  refine ⟨?_, by decide, by decide, by decide, by decide⟩
  intro v a rs
  constructor
  · unfold txtValueMatches
    rw [goTrim_quote_wrap]
  · unfold txtValueMatches checkTXTAnswers
    simp [goTrim_quote_wrap]

/-! ## Propagation polling loops (`WaitForPropagation`)

Two iterations of `WaitForPropagation` exist in the repository: the
all-resolvers quorum (src/unnamed/part_003) and the any-resolver quorum
(src/unnamed/part_002).  Both poll in rounds numbered from 1; the round
budget is `maxAttempts = PollingTimeout / PollingInterval`, and the loop
reports a timeout at the first tick on which `attempt >= maxAttempts`.
`check round resolver` abstracts `checkDNSRecord` succeeding without error;
the remaining-rounds counter makes the recursion structural. -/

inductive PropResult where
  | success : ℕ → PropResult
  | timeout : ℕ → PropResult
deriving DecidableEq

/-- The polling loop of the ALL variant (part_003): a round succeeds only
when every configured resolver confirms and the resolver list is
non-empty. -/
def waitAllFrom {α : Type} (check : ℕ → α → Bool) (resolvers : List α) :
    (remaining attempt : ℕ) → PropResult
  | 0, attempt =>
    if resolvers.all (check attempt ·) && !resolvers.isEmpty then .success attempt
    else .timeout attempt
  | r + 1, attempt =>
    if resolvers.all (check attempt ·) && !resolvers.isEmpty then .success attempt
    else waitAllFrom check resolvers r (attempt + 1)

/-- The function `WaitForPropagation` (part_003, ALL quorum), with rounds numbered
from 1 and `maxAttempts - 1` further rounds available after the first. -/
def WaitForPropagationAll {α : Type} (check : ℕ → α → Bool) (resolvers : List α)
    (maxAttempts : ℕ) : PropResult :=
  waitAllFrom check resolvers (maxAttempts - 1) 1

/-- The polling loop of the ANY variant (part_002): a round succeeds as
soon as some resolver confirms without error. -/
def waitAnyFrom {α : Type} (check : ℕ → α → Bool) (resolvers : List α) :
    (remaining attempt : ℕ) → PropResult
  | 0, attempt =>
    if resolvers.any (check attempt ·) then .success attempt
    else .timeout attempt
  | r + 1, attempt =>
    if resolvers.any (check attempt ·) then .success attempt
    else waitAnyFrom check resolvers r (attempt + 1)

/-- The function `WaitForPropagation` (part_002, ANY quorum). -/
def WaitForPropagationAny {α : Type} (check : ℕ → α → Bool) (resolvers : List α)
    (maxAttempts : ℕ) : PropResult :=
  waitAnyFrom check resolvers (maxAttempts - 1) 1

lemma waitAllFrom_success {α : Type} (check : ℕ → α → Bool) (resolvers : List α) :
    ∀ (remaining attempt r : ℕ),
      waitAllFrom check resolvers remaining attempt = .success r →
      (resolvers.all (check r ·) && !resolvers.isEmpty) = true ∧ attempt ≤ r ∧
      ∀ r', attempt ≤ r' → r' < r →
        (resolvers.all (check r' ·) && !resolvers.isEmpty) = false := by
  intro remaining
  induction remaining with
  | zero =>
    intro attempt r h
    unfold waitAllFrom at h
    split at h
    · rename_i hc
      cases h
      exact ⟨hc, le_refl _, fun r' h1 h2 => absurd (lt_of_le_of_lt h1 h2) (lt_irrefl _)⟩
    · cases h
  | succ rem ih =>
    intro attempt r h
    unfold waitAllFrom at h
    split at h
    · rename_i hc
      cases h
      exact ⟨hc, le_refl _, fun r' h1 h2 => absurd (lt_of_le_of_lt h1 h2) (lt_irrefl _)⟩
    · rename_i hc
      have hrec := ih (attempt + 1) r h
      refine ⟨hrec.1, by omega, ?_⟩
      intro r' h1 h2
      rcases Nat.eq_or_lt_of_le h1 with heq | hlt
      · subst heq
        simpa using hc
      · exact hrec.2.2 r' hlt h2

lemma waitAnyFrom_success {α : Type} (check : ℕ → α → Bool) (resolvers : List α) :
    ∀ (remaining attempt r : ℕ),
      waitAnyFrom check resolvers remaining attempt = .success r →
      resolvers.any (check r ·) = true ∧ attempt ≤ r ∧
      ∀ r', attempt ≤ r' → r' < r → resolvers.any (check r' ·) = false := by
  intro remaining
  induction remaining with
  | zero =>
    intro attempt r h
    unfold waitAnyFrom at h
    split at h
    · rename_i hc
      cases h
      exact ⟨hc, le_refl _, fun r' h1 h2 => absurd (lt_of_le_of_lt h1 h2) (lt_irrefl _)⟩
    · cases h
  | succ rem ih =>
    intro attempt r h
    unfold waitAnyFrom at h
    split at h
    · rename_i hc
      cases h
      exact ⟨hc, le_refl _, fun r' h1 h2 => absurd (lt_of_le_of_lt h1 h2) (lt_irrefl _)⟩
    · rename_i hc
      have hrec := ih (attempt + 1) r h
      refine ⟨hrec.1, by omega, ?_⟩
      intro r' h1 h2
      rcases Nat.eq_or_lt_of_le h1 with heq | hlt
      · subst heq
        simpa using hc
      · exact hrec.2.2 r' hlt h2

lemma waitAllFrom_never {α : Type} (check : ℕ → α → Bool) (resolvers : List α)
    (h : ∀ r, (resolvers.all (check r ·) && !resolvers.isEmpty) = false) :
    ∀ remaining attempt,
      waitAllFrom check resolvers remaining attempt = .timeout (attempt + remaining) := by
  intro remaining
  induction remaining with
  | zero =>
    intro attempt
    unfold waitAllFrom
    rw [if_neg (by simp [h attempt])]
    simp
  | succ rem ih =>
    intro attempt
    unfold waitAllFrom
    rw [if_neg (by simp [h attempt]), ih (attempt + 1)]
    congr 1
    omega

lemma waitAnyFrom_never {α : Type} (check : ℕ → α → Bool) (resolvers : List α)
    (h : ∀ r, resolvers.any (check r ·) = false) :
    ∀ remaining attempt,
      waitAnyFrom check resolvers remaining attempt = .timeout (attempt + remaining) := by
  intro remaining
  induction remaining with
  | zero =>
    intro attempt
    unfold waitAnyFrom
    rw [if_neg (by simp [h attempt])]
    simp
  | succ rem ih =>
    intro attempt
    unfold waitAnyFrom
    rw [if_neg (by simp [h attempt]), ih (attempt + 1)]
    congr 1
    omega

/-- Scenario used by the spec: resolver 0 ("A") confirms from round 1 on,
resolver 1 ("B") only from round 3 on. -/
def scenarioCheck (round res : ℕ) : Bool :=
  if res = 0 then decide (1 ≤ round) else decide (3 ≤ round)

/-- C6: the ALL variant reports success exactly in the first round where
every configured resolver confirms (confirmations from earlier rounds are
not remembered), and the ANY variant in the first round where some
resolver confirms; on the two-resolver scenario where A confirms from
round 1 and B only from round 3, ALL succeeds in round 3 and ANY in
round 1. -/
theorem waitForPropagation_quorum :
    (∀ (α : Type) (check : ℕ → α → Bool) (resolvers : List α) (maxAttempts r : ℕ),
      WaitForPropagationAll check resolvers maxAttempts = .success r →
        (∀ res ∈ resolvers, check r res = true) ∧ resolvers ≠ [] ∧ 1 ≤ r ∧
        ∀ r', 1 ≤ r' → r' < r → ¬∀ res ∈ resolvers, check r' res = true)
  ∧ (∀ (α : Type) (check : ℕ → α → Bool) (resolvers : List α) (maxAttempts r : ℕ),
      WaitForPropagationAny check resolvers maxAttempts = .success r →
        (∃ res ∈ resolvers, check r res = true) ∧ 1 ≤ r ∧
        ∀ r', 1 ≤ r' → r' < r → ¬∃ res ∈ resolvers, check r' res = true)
  ∧ WaitForPropagationAll scenarioCheck [0, 1] 10 = .success 3
  ∧ WaitForPropagationAny scenarioCheck [0, 1] 10 = .success 1 := by
  refine ⟨?_, ?_, by decide, by decide⟩
  · intro α check resolvers maxAttempts r h
    have hs := waitAllFrom_success check resolvers (maxAttempts - 1) 1 r h
    have hcond := (Bool.and_eq_true _ _).mp hs.1
    have hne : resolvers ≠ [] := by
      intro h0
      subst h0
      simp at hcond
    refine ⟨?_, hne, hs.2.1, ?_⟩
    · intro res hres
      exact List.all_eq_true.mp hcond.1 res hres
    · intro r' h1 h2 hall
      have hfalse := hs.2.2 r' h1 h2
      rw [Bool.and_eq_false_iff] at hfalse
      rcases hfalse with hf | hf
      · have hf' : ¬(resolvers.all fun x => check r' x) = true := by
          simp [hf]
        rw [List.all_eq_true] at hf'
        exact hf' (by simpa using hall)
      · simp at hf
        exact hne hf
  · intro α check resolvers maxAttempts r h
    have hs := waitAnyFrom_success check resolvers (maxAttempts - 1) 1 r h
    refine ⟨by simpa using List.any_eq_true.mp hs.1, hs.2.1, ?_⟩
    intro r' h1 h2 hex
    have hfalse := hs.2.2 r' h1 h2
    rw [← Bool.not_eq_true, List.any_eq_true] at hfalse
    exact hfalse (by simpa using hex)

/-- C6 witness: the ALL-quorum soundness statement instantiated on the
A/B scenario at its success round 3. -/
theorem waitForPropagation_quorum_witness :
    (∀ res ∈ ([0, 1] : List ℕ), scenarioCheck 3 res = true)
  ∧ ([0, 1] : List ℕ) ≠ [] := by
  have h := waitForPropagation_quorum.1 ℕ scenarioCheck [0, 1] 10 3 (by decide)
  exact ⟨h.1, h.2.1⟩

/-- C7: with polling interval i > 0 and timeout t > 0 and a quorum
condition that never becomes true, both variants of `WaitForPropagation`
terminate with a timeout error after exactly `max (t / i) 1` rounds (at
most `t / i + 1`); the only terminal outcomes of either variant are
success and timeout; with i = 10ms and t = 35ms the timeout is reported
after round 3. -/
theorem waitForPropagation_timeout_bound (interval timeout : ℕ) (α : Type)
    (check : ℕ → α → Bool) (resolvers : List α)
    (hi : 0 < interval) (ht : 0 < timeout)
    (hnever : ∀ r res, res ∈ resolvers → check r res = false) :
    WaitForPropagationAll check resolvers (timeout / interval)
        = .timeout (max (timeout / interval) 1)
  ∧ WaitForPropagationAny check resolvers (timeout / interval)
        = .timeout (max (timeout / interval) 1)
  ∧ max (timeout / interval) 1 ≤ timeout / interval + 1
  ∧ (∀ maxAttempts, (∃ r, WaitForPropagationAll check resolvers maxAttempts = .success r)
      ∨ (∃ r, WaitForPropagationAll check resolvers maxAttempts = .timeout r))
  ∧ (∀ maxAttempts, (∃ r, WaitForPropagationAny check resolvers maxAttempts = .success r)
      ∨ (∃ r, WaitForPropagationAny check resolvers maxAttempts = .timeout r))
  ∧ WaitForPropagationAll (fun _ _ => false) ([0, 1] : List ℕ) (35 / 10) = .timeout 3 := by
  have hallcond : ∀ r, (resolvers.all (check r ·) && !resolvers.isEmpty) = false := by
    intro r
    cases hres : resolvers with
    | nil => simp [hres]
    | cons x xs =>
      have : check r x = false := hnever r x (by rw [hres]; exact List.mem_cons_self x xs)
      simp [List.all_cons, this]
  have hanycond : ∀ r, resolvers.any (check r ·) = false := by
    intro r
    rw [← Bool.not_eq_true, List.any_eq_true]
    rintro ⟨res, hres, hcheck⟩
    rw [hnever r res hres] at hcheck
    cases hcheck
  refine ⟨?_, ?_, Nat.max_le.mpr ⟨Nat.le_succ _, Nat.le_add_left 1 _⟩, ?_, ?_, by decide⟩
  · unfold WaitForPropagationAll
    rw [waitAllFrom_never check resolvers hallcond (timeout / interval - 1) 1]
    congr 1
    omega
  · unfold WaitForPropagationAny
    rw [waitAnyFrom_never check resolvers hanycond (timeout / interval - 1) 1]
    congr 1
    omega
  · intro maxAttempts
    cases hW : WaitForPropagationAll check resolvers maxAttempts with
    | success r => exact Or.inl ⟨r, rfl⟩
    | timeout r => exact Or.inr ⟨r, rfl⟩
  · intro maxAttempts
    cases hW : WaitForPropagationAny check resolvers maxAttempts with
    | success r => exact Or.inl ⟨r, rfl⟩
    | timeout r => exact Or.inr ⟨r, rfl⟩

/-- C7 witness: interval 10, timeout 35, a condition that never holds:
timeout after round 3 = max (35 / 10) 1. -/
theorem waitForPropagation_timeout_bound_witness :
    WaitForPropagationAll (fun _ _ => false) ([0, 1] : List ℕ) (35 / 10)
      = .timeout (max (35 / 10) 1) :=
  (waitForPropagation_timeout_bound 10 35 ℕ (fun _ _ => false) [0, 1]
    (by decide) (by decide) (fun _ _ _ => rfl)).1

/-- C10: with an empty configured resolver list, neither variant of
`WaitForPropagation` ever reports success — the ALL variant's non-empty
guard blocks the vacuously-true quorum and the ANY variant can never
observe a confirmation — so both always terminate with a timeout. -/
theorem waitForPropagation_empty_resolvers (α : Type) (check : ℕ → α → Bool)
    (maxAttempts : ℕ) :
    (∀ r, WaitForPropagationAll check ([] : List α) maxAttempts ≠ .success r)
  ∧ (∀ r, WaitForPropagationAny check ([] : List α) maxAttempts ≠ .success r)
  ∧ WaitForPropagationAll check ([] : List α) maxAttempts
      = .timeout (max maxAttempts 1)
  ∧ WaitForPropagationAny check ([] : List α) maxAttempts
      = .timeout (max maxAttempts 1) := by
  have hallcond : ∀ r, (List.all ([] : List α) (check r ·) && !List.isEmpty ([] : List α))
      = false := by
    intro r
    simp
  have hanycond : ∀ r, List.any ([] : List α) (check r ·) = false := by
    intro r
    simp
  have hAll : WaitForPropagationAll check ([] : List α) maxAttempts
      = .timeout (max maxAttempts 1) := by
    unfold WaitForPropagationAll
    rw [waitAllFrom_never check [] hallcond (maxAttempts - 1) 1]
    congr 1
    omega
  have hAny : WaitForPropagationAny check ([] : List α) maxAttempts
      = .timeout (max maxAttempts 1) := by
    unfold WaitForPropagationAny
    rw [waitAnyFrom_never check [] hanycond (maxAttempts - 1) 1]
    congr 1
    omega
  refine ⟨?_, ?_, hAll, hAny⟩
  · intro r h
    rw [hAll] at h
    cases h
  · intro r h
    rw [hAny] at h
    cases h

/-! ## Request executor retry loops

`Do` (opusdns/http.go:87-142) and `doRequest` (client.go:210-283) both run
attempts `0 .. MaxRetries`; `outcomes k` is the transport result of the
`k`-th dispatch (a transport error, or a status code).  The
remaining-retries counter makes the recursion structural; each loop
returns the number of dispatches performed together with its result. -/

/-- The transport-level outcome of one dispatched attempt. -/
inductive Outcome where
  | transportError : Outcome
  | status : ℕ → Outcome
deriving DecidableEq

/-- The retry classification shared by both loops: transport errors,
429 and 5xx are retried. -/
def retryable : Outcome → Bool
  | .transportError => true
  | .status code => code == 429 || decide (500 ≤ code)

/-- Result of `Do` (opusdns/http.go): either the response is handed to the
caller (2xx success or non-retryable client error), or retries are
exhausted and the last failure is wrapped in a "max retries exceeded"
error. -/
inductive DoResult where
  | response : ℕ → DoResult
  | maxRetriesExceeded : Outcome → DoResult
deriving DecidableEq

/-- The retry loop of `Do` (opusdns/http.go:87-142): transport errors, 429
and 5xx set `lastErr` and continue; any other status is returned to the
caller; when attempts run out the last failure is wrapped. -/
def DoFrom (outcomes : ℕ → Outcome) : (remaining attempt : ℕ) → ℕ × DoResult
  | 0, attempt =>
    match outcomes attempt with
    | .transportError => (1, .maxRetriesExceeded .transportError)
    | .status code =>
      if code == 429 || decide (500 ≤ code) then (1, .maxRetriesExceeded (.status code))
      else (1, .response code)
  | r + 1, attempt =>
    match outcomes attempt with
    | .transportError =>
      let rest := DoFrom outcomes r (attempt + 1)
      (rest.1 + 1, rest.2)
    | .status code =>
      if code == 429 || decide (500 ≤ code) then
        let rest := DoFrom outcomes r (attempt + 1)
        (rest.1 + 1, rest.2)
      else (1, .response code)

/-- The function `Do` with `MaxRetries = maxRetries`: attempts run from 0 to
`maxRetries` inclusive. -/
def Do (outcomes : ℕ → Outcome) (maxRetries : ℕ) : ℕ × DoResult :=
  DoFrom outcomes maxRetries 0

/-- Result of `doRequest` (client.go): a 2xx response, an immediate
`APIError` for a non-retryable status, or "max retries exceeded" wrapping
the last failure. -/
inductive ClientResult where
  | success : ℕ → ClientResult
  | apiError : ℕ → ClientResult
  | maxRetriesExceeded : Outcome → ClientResult
deriving DecidableEq

/-- The retry loop of `doRequest` (client.go:210-283): transport errors
continue; 2xx returns the response; 429 and 5xx continue; any other
status returns an `APIError` immediately. -/
def doRequestFrom (outcomes : ℕ → Outcome) : (remaining attempt : ℕ) → ℕ × ClientResult
  | 0, attempt =>
    match outcomes attempt with
    | .transportError => (1, .maxRetriesExceeded .transportError)
    | .status code =>
      if decide (200 ≤ code) && decide (code < 300) then (1, .success code)
      else if code == 429 || decide (500 ≤ code) then
        (1, .maxRetriesExceeded (.status code))
      else (1, .apiError code)
  | r + 1, attempt =>
    match outcomes attempt with
    | .transportError =>
      let rest := doRequestFrom outcomes r (attempt + 1)
      (rest.1 + 1, rest.2)
    | .status code =>
      if decide (200 ≤ code) && decide (code < 300) then (1, .success code)
      else if code == 429 || decide (500 ≤ code) then
        let rest := doRequestFrom outcomes r (attempt + 1)
        (rest.1 + 1, rest.2)
      else (1, .apiError code)

/-- The function `doRequest` with `MaxRetries = maxRetries`. -/
def doRequest (outcomes : ℕ → Outcome) (maxRetries : ℕ) : ℕ × ClientResult :=
  doRequestFrom outcomes maxRetries 0

lemma retryable_status (code : ℕ) :
    retryable (.status code) = (code == 429 || decide (500 ≤ code)) := rfl

lemma retryable_not_2xx {code : ℕ}
    (h : (code == 429 || decide (500 ≤ code)) = true) : ¬code < 300 := by
  have hcase : code = 429 ∨ 500 ≤ code := by simpa using h
  rcases hcase with hc | hc
  · omega
  · omega

lemma DoFrom_all_retryable (outcomes : ℕ → Outcome) :
    ∀ (remaining attempt : ℕ),
      (∀ k, attempt ≤ k → k ≤ attempt + remaining → retryable (outcomes k) = true) →
      DoFrom outcomes remaining attempt
        = (remaining + 1, .maxRetriesExceeded (outcomes (attempt + remaining))) := by
  intro remaining
  induction remaining with
  | zero =>
    intro attempt h
    have hlast := h attempt (le_refl _) (by omega)
    unfold DoFrom
    cases ho : outcomes attempt with
    | transportError => simp [ho]
    | status code =>
      rw [ho, retryable_status] at hlast
      simp [hlast, ho]
  | succ rem ih =>
    intro attempt h
    have hfirst := h attempt (le_refl _) (by omega)
    have hrest := ih (attempt + 1) (fun k h1 h2 => h k (by omega) (by omega))
    rw [show attempt + 1 + rem = attempt + (rem + 1) from by omega] at hrest
    unfold DoFrom
    cases ho : outcomes attempt with
    | transportError => simp [hrest]
    | status code =>
      rw [ho, retryable_status] at hfirst
      simp [hfirst, hrest]

lemma DoFrom_stops (outcomes : ℕ → Outcome) :
    ∀ (remaining attempt m : ℕ), attempt ≤ m → m ≤ attempt + remaining →
      (∀ k, attempt ≤ k → k < m → retryable (outcomes k) = true) →
      retryable (outcomes m) = false →
      ∀ code, outcomes m = .status code →
      DoFrom outcomes remaining attempt = (m - attempt + 1, .response code) := by
  intro remaining
  induction remaining with
  | zero =>
    intro attempt m h1 h2 hpre hm code hcode
    have hma : m = attempt := by omega
    subst hma
    rw [hcode, retryable_status] at hm
    unfold DoFrom
    simp [hcode, hm]
  | succ rem ih =>
    intro attempt m h1 h2 hpre hm code hcode
    rcases Nat.eq_or_lt_of_le h1 with heq | hlt
    · subst heq
      rw [hcode, retryable_status] at hm
      unfold DoFrom
      simp [hcode, hm]
    · have hfirst : retryable (outcomes attempt) = true := hpre attempt (le_refl _) hlt
      have hrest := ih (attempt + 1) m (by omega) (by omega)
        (fun k hk1 hk2 => hpre k (by omega) hk2) hm code hcode
      unfold DoFrom
      cases ho : outcomes attempt with
      | transportError =>
        simp only [hrest]
        rw [show m - (attempt + 1) + 1 + 1 = m - attempt + 1 from by omega]
      | status scode =>
        rw [ho, retryable_status] at hfirst
        simp only [hfirst, if_true, hrest]
        rw [show m - (attempt + 1) + 1 + 1 = m - attempt + 1 from by omega]

lemma doRequestFrom_all_retryable (outcomes : ℕ → Outcome) :
    ∀ (remaining attempt : ℕ),
      (∀ k, attempt ≤ k → k ≤ attempt + remaining → retryable (outcomes k) = true) →
      doRequestFrom outcomes remaining attempt
        = (remaining + 1, .maxRetriesExceeded (outcomes (attempt + remaining))) := by
  intro remaining
  induction remaining with
  | zero =>
    intro attempt h
    have hlast := h attempt (le_refl _) (by omega)
    unfold doRequestFrom
    cases ho : outcomes attempt with
    | transportError => simp [ho]
    | status code =>
      rw [ho, retryable_status] at hlast
      have hnot := retryable_not_2xx hlast
      simp [hnot, hlast, ho]
  | succ rem ih =>
    intro attempt h
    have hfirst := h attempt (le_refl _) (by omega)
    have hrest := ih (attempt + 1) (fun k h1 h2 => h k (by omega) (by omega))
    rw [show attempt + 1 + rem = attempt + (rem + 1) from by omega] at hrest
    unfold doRequestFrom
    cases ho : outcomes attempt with
    | transportError => simp [hrest]
    | status code =>
      rw [ho, retryable_status] at hfirst
      have hnot := retryable_not_2xx hfirst
      simp [hnot, hfirst, hrest]

lemma doRequestFrom_stops (outcomes : ℕ → Outcome) :
    ∀ (remaining attempt m : ℕ), attempt ≤ m → m ≤ attempt + remaining →
      (∀ k, attempt ≤ k → k < m → retryable (outcomes k) = true) →
      retryable (outcomes m) = false →
      ∀ code, outcomes m = .status code →
      doRequestFrom outcomes remaining attempt
        = (m - attempt + 1,
           if 200 ≤ code ∧ code < 300 then .success code else .apiError code) := by
  intro remaining
  induction remaining with
  | zero =>
    intro attempt m h1 h2 hpre hm code hcode
    have hma : m = attempt := by omega
    subst hma
    rw [hcode, retryable_status] at hm
    unfold doRequestFrom
    by_cases h2xx : 200 ≤ code ∧ code < 300
    · simp [hcode, h2xx, h2xx.1, h2xx.2]
    · rcases not_and_or.mp h2xx with hc | hc
      · simp [hcode, hm, h2xx, hc]
      · simp [hcode, hm, h2xx, hc]
  | succ rem ih =>
    intro attempt m h1 h2 hpre hm code hcode
    rcases Nat.eq_or_lt_of_le h1 with heq | hlt
    · subst heq
      rw [hcode, retryable_status] at hm
      unfold doRequestFrom
      by_cases h2xx : 200 ≤ code ∧ code < 300
      · simp [hcode, h2xx, h2xx.1, h2xx.2]
      · rcases not_and_or.mp h2xx with hc | hc
        · simp [hcode, hm, h2xx, hc]
        · simp [hcode, hm, h2xx, hc]
    · have hfirst : retryable (outcomes attempt) = true := hpre attempt (le_refl _) hlt
      have hrest := ih (attempt + 1) m (by omega) (by omega)
        (fun k hk1 hk2 => hpre k (by omega) hk2) hm code hcode
      unfold doRequestFrom
      cases ho : outcomes attempt with
      | transportError =>
        simp only [hrest]
        rw [show m - (attempt + 1) + 1 + 1 = m - attempt + 1 from by omega]
      | status scode =>
        rw [ho, retryable_status] at hfirst
        have hnot := retryable_not_2xx hfirst
        have hd : (decide (200 ≤ scode) && decide (scode < 300)) = false := by
          simp [hnot]
        simp only [hd, Bool.false_eq_true, if_false, hfirst, if_true, hrest]
        rw [show m - (attempt + 1) + 1 + 1 = m - attempt + 1 from by omega]

/-- C1: with `MaxRetries = n`, both retry loops dispatch exactly
`min(first non-retryable index, n) + 1` calls: if every attempt up to `n`
fails retryably (429, 5xx or transport error), exactly `n + 1` dispatches
happen and the result wraps the final failure in a "max retries exceeded"
error; if the first non-retryable outcome occurs at attempt `m ≤ n`,
exactly `m + 1` dispatches happen and that outcome is returned — in
particular a 2xx succeeds and a terminal status on the first attempt means
exactly one dispatch. -/
theorem retry_dispatch_count (outcomes : ℕ → Outcome) (n m : ℕ) :
    ((∀ k, k ≤ n → retryable (outcomes k) = true) →
      Do outcomes n = (n + 1, .maxRetriesExceeded (outcomes n))
    ∧ doRequest outcomes n = (n + 1, .maxRetriesExceeded (outcomes n)))
  ∧ (m ≤ n → (∀ k, k < m → retryable (outcomes k) = true) →
      retryable (outcomes m) = false →
      ∀ code, outcomes m = .status code →
      Do outcomes n = (m + 1, .response code)
    ∧ doRequest outcomes n
        = (m + 1, if 200 ≤ code ∧ code < 300 then .success code else .apiError code)) := by
  constructor
  · intro h
    constructor
    · have := DoFrom_all_retryable outcomes n 0 (fun k h1 h2 => h k (by omega))
      unfold Do
      rw [this]
      simp
    · have := doRequestFrom_all_retryable outcomes n 0 (fun k h1 h2 => h k (by omega))
      unfold doRequest
      rw [this]
      simp
  · intro hmn hpre hm code hcode
    constructor
    · have := DoFrom_stops outcomes n 0 m (by omega) (by omega)
        (fun k h1 h2 => hpre k h2) hm code hcode
      unfold Do
      rw [this]
      simp
    · have := doRequestFrom_stops outcomes n 0 m (by omega) (by omega)
        (fun k h1 h2 => hpre k h2) hm code hcode
      unfold doRequest
      rw [this]
      simp

/-- C1 witness: with `MaxRetries = 2`, two retryable failures (a 503 and a
transport error) followed by a 200 yield exactly 3 dispatches and a
successful return, and three 500s yield exactly 3 dispatches and a
"max retries exceeded" error wrapping the final 500; a 404 on the first
attempt yields exactly 1 dispatch. -/
theorem retry_dispatch_count_witness :
    Do (fun k => if k = 0 then .status 503 else if k = 1 then .transportError
        else .status 200) 2 = (3, .response 200)
  ∧ doRequest (fun _ => .status 500) 2 = (3, .maxRetriesExceeded (.status 500))
  ∧ Do (fun _ => .status 404) 2 = (1, .response 404) := by
  refine ⟨?_, ?_, ?_⟩
  · have h := (retry_dispatch_count (fun k => if k = 0 then .status 503
      else if k = 1 then .transportError else .status 200) 2 2).2
      (le_refl 2) (by decide) (by decide) 200 (by decide)
    exact h.1
  · have h := (retry_dispatch_count (fun _ => .status 500) 2 0).1 (fun k _ => by decide)
    exact h.2
  · have h := (retry_dispatch_count (fun _ => .status 404) 2 0).2
      (by omega) (by omega) (by decide) 404 rfl
    exact h.1

/-! ## Backoff calculation (`calculateBackoff`, opusdns/http.go:281-297)

Durations are modelled as exact rationals; one unit is one second.
`r` models `time.Now().UnixNano() % 100`, the pseudo-random source of the
jitter term `backoff * 0.2 * (0.5 - r/100)`. -/

/-- The function `calculateBackoff` (opusdns/http.go:281-297): exponential backoff
`RetryWaitMin * 2^(attempt-1)`, capped at `RetryWaitMax`, plus the jitter
term computed from `r`. -/
def calculateBackoff (retryWaitMin retryWaitMax : ℚ) (attempt : ℕ) (r : Fin 100) : ℚ :=
  let backoff := retryWaitMin * 2 ^ (attempt - 1)
  let capped := if backoff > retryWaitMax then retryWaitMax else backoff
  capped + capped * (2 / 10) * (1 / 2 - (r.val : ℚ) / 100)

/-- C4 counterexample: the jitter is not symmetric around the capped
exponential value: with `RetryWaitMin = 1000`, `RetryWaitMax = 30000` and
attempt 1 the base is `b = 1000`, the value `b + 100` (i.e. `+10%`) is
attainable, but the mirrored value `b - 100` is not (the lowest attainable
value is `902`). -/
theorem calculateBackoff_not_symmetric :
    (∃ r : Fin 100, calculateBackoff 1000 30000 1 r = 1000 + 100)
  ∧ ¬(∃ r : Fin 100, calculateBackoff 1000 30000 1 r = 1000 - 100) := by
  have hval : ∀ r : Fin 100,
      calculateBackoff 1000 30000 1 r = 1100 - 2 * (r.val : ℚ) := by
    intro r
    simp only [calculateBackoff]
    rw [if_neg (by norm_num)]
    ring
  constructor
  · refine ⟨⟨0, by norm_num⟩, ?_⟩
    rw [hval]
    norm_num
  · rintro ⟨r, hr⟩
    rw [hval] at hr
    have hr100 : (r.val : ℚ) = 100 := by linarith
    have hrnat : r.val = 100 := by exact_mod_cast hr100
    have := r.isLt
    omega

/-- C4 (amended): for every retry attempt `k ≥ 1` the backoff delay equals
`b * (1 + 0.2 * (0.5 - r/100))` for `b = min(minBackoff * 2^(k-1),
maxBackoff)` and some `r ∈ {0,...,99}`, so it always lies within
`[0.902*b, 1.1*b]`, which is contained in `[0.8*b, 1.2*b]` — but the
jitter spans `-9.8%..+10%`, not a symmetric `±20%`. -/
theorem calculateBackoff_bounds (retryWaitMin retryWaitMax : ℚ) (attempt : ℕ) (r : Fin 100)
    (hmin : 0 ≤ retryWaitMin) (hminmax : retryWaitMin ≤ retryWaitMax) (hatt : 1 ≤ attempt) :
    (451 / 500) * min (retryWaitMin * 2 ^ (attempt - 1)) retryWaitMax
        ≤ calculateBackoff retryWaitMin retryWaitMax attempt r
  ∧ calculateBackoff retryWaitMin retryWaitMax attempt r
        ≤ (11 / 10) * min (retryWaitMin * 2 ^ (attempt - 1)) retryWaitMax
  ∧ (4 / 5) * min (retryWaitMin * 2 ^ (attempt - 1)) retryWaitMax
        ≤ calculateBackoff retryWaitMin retryWaitMax attempt r
  ∧ calculateBackoff retryWaitMin retryWaitMax attempt r
        ≤ (6 / 5) * min (retryWaitMin * 2 ^ (attempt - 1)) retryWaitMax := by
  have hbnonneg : 0 ≤ min (retryWaitMin * 2 ^ (attempt - 1)) retryWaitMax :=
    le_min (mul_nonneg hmin (by positivity)) (le_trans hmin hminmax)
  have hcap : (if retryWaitMin * 2 ^ (attempt - 1) > retryWaitMax then retryWaitMax
      else retryWaitMin * 2 ^ (attempt - 1))
      = min (retryWaitMin * 2 ^ (attempt - 1)) retryWaitMax := by
    by_cases hgt : retryWaitMin * 2 ^ (attempt - 1) > retryWaitMax
    · rw [if_pos hgt, min_eq_right (le_of_lt hgt)]
    · rw [if_neg hgt, min_eq_left (not_lt.mp hgt)]
  have hval : calculateBackoff retryWaitMin retryWaitMax attempt r
      = min (retryWaitMin * 2 ^ (attempt - 1)) retryWaitMax
        * (1 + (2 / 10) * (1 / 2 - (r.val : ℚ) / 100)) := by
    simp only [calculateBackoff]
    rw [hcap]
    ring
  have hv0 : (0 : ℚ) ≤ (r.val : ℚ) := by positivity
  have hv99 : ((r.val : ℚ)) ≤ 99 := by
    have h100 := r.isLt
    exact_mod_cast Nat.le_of_lt_succ h100
  have hint1 : 0 ≤ min (retryWaitMin * 2 ^ (attempt - 1)) retryWaitMax * (r.val : ℚ) :=
    mul_nonneg hbnonneg hv0
  have hint2 : min (retryWaitMin * 2 ^ (attempt - 1)) retryWaitMax * (r.val : ℚ)
      ≤ min (retryWaitMin * 2 ^ (attempt - 1)) retryWaitMax * 99 :=
    mul_le_mul_of_nonneg_left hv99 hbnonneg
  rw [hval]
  refine ⟨by nlinarith, by nlinarith, by nlinarith, by nlinarith⟩

/-- C4 witness: the amended bounds at `RetryWaitMin = 1000`,
`RetryWaitMax = 30000`, attempt 1, `r = 0`. -/
theorem calculateBackoff_bounds_witness :
    (451 / 500) * min ((1000 : ℚ) * 2 ^ (1 - 1)) 30000 ≤ calculateBackoff 1000 30000 1 0
  ∧ calculateBackoff 1000 30000 1 0 ≤ (11 / 10) * min ((1000 : ℚ) * 2 ^ (1 - 1)) 30000 := by
  have h := calculateBackoff_bounds 1000 30000 1 0 (by norm_num) (by norm_num) (le_refl 1)
  exact ⟨h.1, h.2.1⟩

/-! ## Rate-limit cooperation (`handleRateLimit`, `waitForRateLimit`,
`Do`; opusdns/http.go:87-142, 299-343)

The shared rate-limit state and the loop of `Do` are modelled with an
explicit clock: `now` advances by the backoff delay before each retry and
by the attempt's transport duration.  Blocking in `waitForRateLimit` is
modelled as advancing the clock to the deadline.  The `Retry-After`
header is modelled after parsing: an integer-seconds value, an HTTP date,
an unparsable value, or absent (the latter two fall back to
`RetryWaitMax`, as in the Go code). -/

/-- The shared rate-limit fields of `HTTPClient`: `rateLimited` and
`retryAfter`. -/
structure RateLimitState where
  rateLimited : Bool
  retryAfter : ℚ
deriving DecidableEq

/-- The `Retry-After` header of a 429 response, as consumed by
`handleRateLimit`. -/
inductive RetryAfterHeader where
  | absent : RetryAfterHeader
  | invalid : RetryAfterHeader
  | seconds : ℕ → RetryAfterHeader
  | httpDate : ℚ → RetryAfterHeader
deriving DecidableEq

/-- The function `handleRateLimit` (opusdns/http.go:299-318): sets `rateLimited` and
computes the new deadline `now + retryAfter`, where `retryAfter` comes
from the parsed `Retry-After` header (integer seconds, or
`time.Until(date)`), defaulting to `RetryWaitMax`. -/
def handleRateLimit (retryWaitMax now : ℚ) (hdr : RetryAfterHeader) : RateLimitState :=
  { rateLimited := true,
    retryAfter := now + (match hdr with
      | .seconds s => (s : ℚ)
      | .httpDate t => t - now
      | .absent => retryWaitMax
      | .invalid => retryWaitMax) }

/-- The function `waitForRateLimit` (opusdns/http.go:320-343): if not limited or the
deadline has passed, clear the flag and return immediately; otherwise
block until the deadline and clear the flag.  Returns the time at which
the wait ends together with the new state. -/
def waitForRateLimit (now : ℚ) (st : RateLimitState) : ℚ × RateLimitState :=
  if !st.rateLimited || decide (st.retryAfter < now) then
    (now, { st with rateLimited := false })
  else
    (st.retryAfter, { st with rateLimited := false })

/-- One attempt of the `Do` loop seen by the rate limiter: how long the
dispatched call takes, its transport outcome, and (for a 429) the
`Retry-After` header of the response. -/
structure AttemptSpec where
  duration : ℚ
  outcome : Outcome
  retryAfterHeader : RetryAfterHeader

/-- A dispatch of the underlying transport, recorded with the moment it
happens and the rate-limit deadline in force at that moment. -/
structure DispatchEvent where
  time : ℚ
  deadline : ℚ

/-- Result of one iteration of the `Do` loop: the dispatch event, the
clock and shared state afterwards, and whether the loop continues. -/
structure StepResult where
  event : DispatchEvent
  now : ℚ
  state : RateLimitState
  retry : Bool

/-- The moment the transport call of one iteration is dispatched: after
`waitForRateLimit` and, for retries, after the backoff sleep. -/
def dispatchTime (delay : ℚ) (isFirst : Bool) (now : ℚ) (st : RateLimitState) : ℚ :=
  if isFirst then (waitForRateLimit now st).1 else (waitForRateLimit now st).1 + delay

/-- The shared state after the classification step of one iteration: a 429
updates it through `handleRateLimit`; every other outcome leaves the state
produced by `waitForRateLimit` untouched. -/
def stepState (retryWaitMax endTime : ℚ) (o : Outcome) (hdr : RetryAfterHeader)
    (stw : RateLimitState) : RateLimitState :=
  match o with
  | .transportError => stw
  | .status code => if code == 429 then handleRateLimit retryWaitMax endTime hdr else stw

/-- One iteration of the `Do` loop (opusdns/http.go:90-138):
`waitForRateLimit`, backoff sleep (on retries), dispatch, then
classification — 429 updates the shared state via `handleRateLimit` and
retries; 5xx and transport errors retry; anything else returns. -/
def attemptStep (retryWaitMax delay : ℚ) (isFirst : Bool) (spec : AttemptSpec)
    (now : ℚ) (st : RateLimitState) : StepResult :=
  ⟨⟨dispatchTime delay isFirst now st, ((waitForRateLimit now st).2).retryAfter⟩,
    dispatchTime delay isFirst now st + spec.duration,
    stepState retryWaitMax (dispatchTime delay isFirst now st + spec.duration)
      spec.outcome spec.retryAfterHeader ((waitForRateLimit now st).2),
    retryable spec.outcome⟩

/-- Outcome of a full run of the `Do` loop: all dispatch events, the final
clock and the final shared state. -/
structure RunResult where
  events : List DispatchEvent
  now : ℚ
  state : RateLimitState

/-- The `Do` loop with the explicit clock, running attempts
`attempt .. attempt + remaining` unless a non-retryable outcome stops it. -/
def DoTimedFrom (specs : ℕ → AttemptSpec) (delays : ℕ → ℚ) (retryWaitMax : ℚ) :
    (remaining attempt : ℕ) → ℚ → RateLimitState → RunResult
  | 0, attempt, now, st =>
    let s := attemptStep retryWaitMax (delays attempt) (attempt == 0) (specs attempt) now st
    ⟨[s.event], s.now, s.state⟩
  | r + 1, attempt, now, st =>
    let s := attemptStep retryWaitMax (delays attempt) (attempt == 0) (specs attempt) now st
    if s.retry then
      let rest := DoTimedFrom specs delays retryWaitMax r (attempt + 1) s.now s.state
      ⟨s.event :: rest.events, rest.now, rest.state⟩
    else ⟨[s.event], s.now, s.state⟩

/-- The function `Do` with the explicit clock, from attempt 0 in an arbitrary starting
state. -/
def DoTimed (specs : ℕ → AttemptSpec) (delays : ℕ → ℚ) (retryWaitMax : ℚ)
    (maxRetries : ℕ) (now₀ : ℚ) (st₀ : RateLimitState) : RunResult :=
  DoTimedFrom specs delays retryWaitMax maxRetries 0 now₀ st₀

/-- The reachable-state invariant of the shared rate-limit value: whenever
the limited flag is off, the stored deadline is already in the past.  It
holds of the freshly constructed state (`false`, zero time) and, as proved
below, is preserved by every run of the loop. -/
def RLInv (now : ℚ) (st : RateLimitState) : Prop :=
  st.rateLimited = false → st.retryAfter ≤ now

lemma waitForRateLimit_clears (now : ℚ) (st : RateLimitState) :
    ((waitForRateLimit now st).2).rateLimited = false := by
  unfold waitForRateLimit
  split
  · rfl
  · rfl

lemma waitForRateLimit_retryAfter (now : ℚ) (st : RateLimitState) :
    ((waitForRateLimit now st).2).retryAfter = st.retryAfter := by
  unfold waitForRateLimit
  split
  · rfl
  · rfl

lemma waitForRateLimit_le (now : ℚ) (st : RateLimitState) :
    now ≤ (waitForRateLimit now st).1 := by
  unfold waitForRateLimit
  split
  · exact le_refl _
  · rename_i h
    have h2 : ¬st.retryAfter < now := by
      intro hc
      exact h (by simp [hc])
    exact not_lt.mp h2

lemma waitForRateLimit_deadline_le (now : ℚ) (st : RateLimitState) (hinv : RLInv now st) :
    st.retryAfter ≤ (waitForRateLimit now st).1 := by
  unfold waitForRateLimit
  split
  · rename_i h
    rcases Bool.or_eq_true_iff.mp h with h1 | h1
    · have hoff : st.rateLimited = false := by simpa using h1
      exact hinv hoff
    · exact le_of_lt (of_decide_eq_true h1)
  · exact le_refl _

lemma waitForRateLimit_blocks (now : ℚ) (st : RateLimitState)
    (hlim : st.rateLimited = true) (hfut : now ≤ st.retryAfter) :
    (waitForRateLimit now st).1 = st.retryAfter := by
  have hnl : ¬st.retryAfter < now := not_lt.mpr hfut
  unfold waitForRateLimit
  rw [hlim]
  simp [hnl]

lemma dispatchTime_ge (delay : ℚ) (isFirst : Bool) (now : ℚ) (st : RateLimitState)
    (hdel : 0 ≤ delay) :
    (waitForRateLimit now st).1 ≤ dispatchTime delay isFirst now st := by
  unfold dispatchTime
  split
  · exact le_refl _
  · exact le_add_of_nonneg_right hdel

lemma DoTimedFrom_zero (specs : ℕ → AttemptSpec) (delays : ℕ → ℚ) (retryWaitMax : ℚ)
    (attempt : ℕ) (now : ℚ) (st : RateLimitState) :
    DoTimedFrom specs delays retryWaitMax 0 attempt now st =
      ⟨[(attemptStep retryWaitMax (delays attempt) (attempt == 0) (specs attempt) now st).event],
       (attemptStep retryWaitMax (delays attempt) (attempt == 0) (specs attempt) now st).now,
       (attemptStep retryWaitMax (delays attempt) (attempt == 0) (specs attempt) now st).state⟩ :=
  rfl

lemma DoTimedFrom_succ (specs : ℕ → AttemptSpec) (delays : ℕ → ℚ) (retryWaitMax : ℚ)
    (r attempt : ℕ) (now : ℚ) (st : RateLimitState) :
    DoTimedFrom specs delays retryWaitMax (r + 1) attempt now st =
      (if (attemptStep retryWaitMax (delays attempt) (attempt == 0) (specs attempt) now st).retry
       then
        ⟨(attemptStep retryWaitMax (delays attempt) (attempt == 0) (specs attempt) now st).event ::
          (DoTimedFrom specs delays retryWaitMax r (attempt + 1)
            (attemptStep retryWaitMax (delays attempt) (attempt == 0) (specs attempt) now st).now
            (attemptStep retryWaitMax (delays attempt) (attempt == 0)
              (specs attempt) now st).state).events,
         (DoTimedFrom specs delays retryWaitMax r (attempt + 1)
            (attemptStep retryWaitMax (delays attempt) (attempt == 0) (specs attempt) now st).now
            (attemptStep retryWaitMax (delays attempt) (attempt == 0)
              (specs attempt) now st).state).now,
         (DoTimedFrom specs delays retryWaitMax r (attempt + 1)
            (attemptStep retryWaitMax (delays attempt) (attempt == 0) (specs attempt) now st).now
            (attemptStep retryWaitMax (delays attempt) (attempt == 0)
              (specs attempt) now st).state).state⟩
       else
        ⟨[(attemptStep retryWaitMax (delays attempt) (attempt == 0) (specs attempt) now st).event],
         (attemptStep retryWaitMax (delays attempt) (attempt == 0) (specs attempt) now st).now,
         (attemptStep retryWaitMax (delays attempt) (attempt == 0) (specs attempt) now st).state⟩) :=
  rfl

lemma attemptStep_spec (retryWaitMax delay : ℚ) (isFirst : Bool) (spec : AttemptSpec)
    (now : ℚ) (st : RateLimitState) (hdel : 0 ≤ delay) (hdur : 0 ≤ spec.duration)
    (hinv : RLInv now st) :
    (attemptStep retryWaitMax delay isFirst spec now st).event.deadline
        ≤ (attemptStep retryWaitMax delay isFirst spec now st).event.time
  ∧ now ≤ (attemptStep retryWaitMax delay isFirst spec now st).now
  ∧ RLInv (attemptStep retryWaitMax delay isFirst spec now st).now
      (attemptStep retryWaitMax delay isFirst spec now st).state := by
  have hd1 : st.retryAfter ≤ dispatchTime delay isFirst now st :=
    le_trans (waitForRateLimit_deadline_le now st hinv)
      (dispatchTime_ge delay isFirst now st hdel)
  have hd2 : now ≤ dispatchTime delay isFirst now st :=
    le_trans (waitForRateLimit_le now st) (dispatchTime_ge delay isFirst now st hdel)
  have hd3 : dispatchTime delay isFirst now st
      ≤ dispatchTime delay isFirst now st + spec.duration :=
    le_add_of_nonneg_right hdur
  have hcarry : RLInv (dispatchTime delay isFirst now st + spec.duration)
      ((waitForRateLimit now st).2) := by
    intro _
    rw [waitForRateLimit_retryAfter]
    exact le_trans hd1 hd3
  refine ⟨?_, le_trans hd2 hd3, ?_⟩
  · show ((waitForRateLimit now st).2).retryAfter ≤ dispatchTime delay isFirst now st
    rw [waitForRateLimit_retryAfter]
    exact hd1
  · show RLInv (dispatchTime delay isFirst now st + spec.duration)
      (stepState retryWaitMax (dispatchTime delay isFirst now st + spec.duration)
        spec.outcome spec.retryAfterHeader ((waitForRateLimit now st).2))
    cases ho : spec.outcome with
    | transportError =>
      simp only [stepState]
      exact hcarry
    | status code =>
      simp only [stepState]
      split
      · intro hoff
        exact absurd hoff (by simp [handleRateLimit])
      · exact hcarry

lemma DoTimedFrom_safety (specs : ℕ → AttemptSpec) (delays : ℕ → ℚ) (retryWaitMax : ℚ)
    (hdur : ∀ a, 0 ≤ (specs a).duration) (hdel : ∀ a, 0 ≤ delays a) :
    ∀ (remaining attempt : ℕ) (now : ℚ) (st : RateLimitState), RLInv now st →
      (∀ e ∈ (DoTimedFrom specs delays retryWaitMax remaining attempt now st).events,
        e.deadline ≤ e.time)
    ∧ now ≤ (DoTimedFrom specs delays retryWaitMax remaining attempt now st).now
    ∧ RLInv (DoTimedFrom specs delays retryWaitMax remaining attempt now st).now
        (DoTimedFrom specs delays retryWaitMax remaining attempt now st).state := by
  intro remaining
  induction remaining with
  | zero =>
    intro attempt now st hinv
    obtain ⟨h1, h2, h3⟩ := attemptStep_spec retryWaitMax (delays attempt) (attempt == 0)
      (specs attempt) now st (hdel attempt) (hdur attempt) hinv
    rw [DoTimedFrom_zero]
    refine ⟨?_, h2, h3⟩
    intro e he
    simp only [List.mem_singleton] at he
    subst he
    exact h1
  | succ rem ih =>
    intro attempt now st hinv
    obtain ⟨h1, h2, h3⟩ := attemptStep_spec retryWaitMax (delays attempt) (attempt == 0)
      (specs attempt) now st (hdel attempt) (hdur attempt) hinv
    rw [DoTimedFrom_succ]
    split
    · obtain ⟨hr1, hr2, hr3⟩ := ih (attempt + 1)
        (attemptStep retryWaitMax (delays attempt) (attempt == 0) (specs attempt) now st).now
        (attemptStep retryWaitMax (delays attempt) (attempt == 0) (specs attempt) now st).state
        h3
      refine ⟨?_, le_trans h2 hr2, hr3⟩
      intro e he
      simp only [List.mem_cons] at he
      rcases he with he | he
      · subst he
        exact h1
      · exact hr1 e he
    · refine ⟨?_, h2, h3⟩
      intro e he
      simp only [List.mem_singleton] at he
      subst he
      exact h1

/-- C5: the shared rate-limit state invariant.  Starting from any
reachable state (limited flag off only when the stored deadline has
passed — true of the freshly constructed client), every run of the `Do`
loop (i) dispatches no attempt while the clock is before the deadline in
force at that moment, (ii) only advances the clock and re-establishes the
reachable-state invariant, so the guarantee extends to the first attempt
of every later call sharing the state; moreover (iii) a step leaves the
deadline unchanged unless its outcome is a 429; (iv) a 429 with a parsed
`Retry-After` of `s` seconds sets the limited flag and a deadline `s`
after the response, and a parsed HTTP date `t` sets the deadline to `t`
itself; and (v) `waitForRateLimit` always clears the limited flag and,
when called with the limited flag set and a deadline not yet passed,
returns exactly at the deadline. -/
theorem rateLimit_invariant (specs : ℕ → AttemptSpec) (delays : ℕ → ℚ)
    (retryWaitMax : ℚ) (maxRetries : ℕ) (now₀ : ℚ) (st₀ : RateLimitState)
    (hdur : ∀ a, 0 ≤ (specs a).duration) (hdel : ∀ a, 0 ≤ delays a)
    (hinv : RLInv now₀ st₀) :
    (∀ e ∈ (DoTimed specs delays retryWaitMax maxRetries now₀ st₀).events,
        e.deadline ≤ e.time)
  ∧ now₀ ≤ (DoTimed specs delays retryWaitMax maxRetries now₀ st₀).now
  ∧ RLInv (DoTimed specs delays retryWaitMax maxRetries now₀ st₀).now
      (DoTimed specs delays retryWaitMax maxRetries now₀ st₀).state
  ∧ (∀ (rwm d : ℚ) (f : Bool) (spec : AttemptSpec) (now : ℚ) (st : RateLimitState),
      (∀ c, spec.outcome = .status c → c ≠ 429) →
      ((attemptStep rwm d f spec now st).state).retryAfter = st.retryAfter)
  ∧ (∀ (rwm d : ℚ) (f : Bool) (spec : AttemptSpec) (now : ℚ) (st : RateLimitState) (s : ℕ),
      spec.outcome = .status 429 → spec.retryAfterHeader = .seconds s →
      (attemptStep rwm d f spec now st).state
        = ⟨true, (attemptStep rwm d f spec now st).now + (s : ℚ)⟩)
  ∧ (∀ (rwm d : ℚ) (f : Bool) (spec : AttemptSpec) (now : ℚ) (st : RateLimitState) (t : ℚ),
      spec.outcome = .status 429 → spec.retryAfterHeader = .httpDate t →
      (attemptStep rwm d f spec now st).state = ⟨true, t⟩)
  ∧ (∀ (now : ℚ) (st : RateLimitState),
      ((waitForRateLimit now st).2).rateLimited = false)
  ∧ (∀ (now : ℚ) (st : RateLimitState), st.rateLimited = true → now ≤ st.retryAfter →
      (waitForRateLimit now st).1 = st.retryAfter) := by
  obtain ⟨h1, h2, h3⟩ := DoTimedFrom_safety specs delays retryWaitMax hdur hdel
    maxRetries 0 now₀ st₀ hinv
  refine ⟨h1, h2, h3, ?_, ?_, ?_, waitForRateLimit_clears, waitForRateLimit_blocks⟩
  · intro rwm d f spec now st hno
    show (stepState rwm (dispatchTime d f now st + spec.duration)
        spec.outcome spec.retryAfterHeader ((waitForRateLimit now st).2)).retryAfter
      = st.retryAfter
    cases ho : spec.outcome with
    | transportError =>
      simp only [stepState]
      exact waitForRateLimit_retryAfter now st
    | status code =>
      have hneq : code ≠ 429 := hno code ho
      have h429 : (code == 429) = false := by simpa using hneq
      simp only [stepState, h429, Bool.false_eq_true, if_false]
      exact waitForRateLimit_retryAfter now st
  · intro rwm d f spec now st s ho hh
    show stepState rwm (dispatchTime d f now st + spec.duration)
        spec.outcome spec.retryAfterHeader ((waitForRateLimit now st).2)
      = ⟨true, dispatchTime d f now st + spec.duration + (s : ℚ)⟩
    rw [ho, hh]
    simp only [stepState, beq_self_eq_true, if_true]
    simp [handleRateLimit]
  · intro rwm d f spec now st t ho hh
    show stepState rwm (dispatchTime d f now st + spec.duration)
        spec.outcome spec.retryAfterHeader ((waitForRateLimit now st).2)
      = ⟨true, t⟩
    rw [ho, hh]
    simp only [stepState, beq_self_eq_true, if_true]
    simp only [handleRateLimit]
    congr 1
    ring

/-- C5 witness: a run hitting 429s with `Retry-After: 7` from the fresh
state (flag off, deadline zero) only moves the clock forward. -/
theorem rateLimit_invariant_witness :
    (0 : ℚ) ≤ (DoTimed (fun _ => ⟨0, .status 429, .seconds 7⟩) (fun _ => 0) 30 2 0
        ⟨false, 0⟩).now :=
  (rateLimit_invariant (fun _ => ⟨0, .status 429, .seconds 7⟩) (fun _ => 0) 30 2 0
    ⟨false, 0⟩ (fun _ => le_refl 0) (fun _ => le_refl 0) (fun _ => le_refl 0)).2.1

end OpusDNS
